import Mathlib

/-!
Verification of the Simplex engine in `src/services/simplexLogic.ts`
(repository Simplex_Method), against its natural-language specification.

The data model mirrors `src/types.ts`; `solveSimplex` and its helpers
mirror the single exported function of `simplexLogic.ts`.  Scalars are
modelled as exact rationals; the TypeScript `while (iterations < 100)`
loop becomes fuel-based recursion with fuel 100.
-/

namespace Simplex

/-- Mirrors `OptimizationType` of `src/types.ts`. -/
inductive OptimizationType where
  | MAXIMIZE
  | MINIMIZE
deriving DecidableEq, Repr

/-- Mirrors `ConstraintType` of `src/types.ts`. -/
inductive ConstraintType where
  | LESS_THAN_EQ
  | GREATER_THAN_EQ
  | EQUALS
deriving DecidableEq, Repr

/-- Mirrors `Constraint` of `src/types.ts`. -/
structure Constraint where
  id : String
  coefficients : List ℚ
  type : ConstraintType
  rhs : ℚ
deriving DecidableEq, Repr

/-- Default used to model a JavaScript array read; the engine only reads
`constraints[i]` for `i < constraints.length`, so it is never observed. -/
def cdefault : Constraint := ⟨"", [], ConstraintType.LESS_THAN_EQ, 0⟩

/-- Mirrors `LPModel` of `src/types.ts`. -/
structure LPModel where
  type : OptimizationType
  numVariables : Nat
  variableNames : List String
  objectiveCoefficients : List ℚ
  constraints : List Constraint
deriving DecidableEq, Repr

/-- Mirrors `SimplexStep` of `src/types.ts` (`pivotRow`/`pivotCol` are
optional fields there, hence `Option Nat`). -/
structure SimplexStep where
  tableau : List (List ℚ)
  pivotRow : Option Nat
  pivotCol : Option Nat
  basicVariables : List Nat
  description : String
  isOptimal : Bool
deriving DecidableEq, Repr

/-- Mirrors the status union of `SimplexResult` in `src/types.ts`. -/
inductive SimplexStatus where
  | OPTIMAL
  | UNBOUNDED
  | INFEASIBLE
deriving DecidableEq, Repr

/-- Mirrors `SimplexResult` of `src/types.ts` (`optimalValue: number | null`
becomes `Option ℚ`). -/
structure SimplexResult where
  optimalValue : Option ℚ
  variableValues : List ℚ
  status : SimplexStatus
  steps : List SimplexStep
deriving DecidableEq, Repr

/-- `tableau[i][j]`: entry of a row-major tableau, 0 outside the array. -/
def entryAt (T : List (List ℚ)) (i j : Nat) : ℚ := (T.getD i []).getD j 0

/-- The initial tableau built by lines 20-50 of `simplexLogic.ts`: the
zero-filled `(numConstraints+1) × (numVariables+numConstraints+1)` matrix
with constraint coefficients, the slack identity block, the RHS column and
the objective row `isMin ? coeff : -coeff` written into it. -/
def initTableau (model : LPModel) : List (List ℚ) :=
  let nv := model.numVariables
  let nc := model.constraints.length
  let tc := nv + nc + 1
  (List.range (nc + 1)).map (fun i =>
    if i < nc then
      let con := model.constraints.getD i cdefault
      (List.range tc).map (fun j =>
        if j < nv then con.coefficients.getD j 0
        else if j = nv + i then 1
        else if j = tc - 1 then con.rhs
        else 0)
    else
      (List.range tc).map (fun j =>
        if j < nv then
          (if model.type = OptimizationType.MINIMIZE then
            model.objectiveCoefficients.getD j 0
          else
            -(model.objectiveCoefficients.getD j 0))
        else 0))

/-- The initial basis pushed at line 42 of `simplexLogic.ts`:
row `i`'s basic variable is slack column `numVariables + i`. -/
def initBasis (model : LPModel) : List Nat :=
  (List.range model.constraints.length).map (fun i => model.numVariables + i)

/-- The entering-column scan of lines 60-68 of `simplexLogic.ts`: mutable
state `(pivotCol, minValue)` starting at `(-1, 0)`, updated when
`lastRow[j] < minValue` (strict, so the first most-negative index wins). -/
def colScan (row : List ℚ) : List Nat → (Option Nat × ℚ) → (Option Nat × ℚ)
  | [], acc => acc
  | j :: rest, acc =>
    let v := row.getD j 0
    if v < acc.2 then colScan row rest (some j, v) else colScan row rest acc

/-- The entering column (`pivotCol`): scan of columns `0..n-1` of the
objective row, `none` standing for the sentinel `-1`. -/
def findPivotCol (row : List ℚ) (n : Nat) : Option Nat :=
  (colScan row (List.range n) (none, 0)).1

/-- The ratio-test scan of lines 83-97 of `simplexLogic.ts`: rows with
`coeff > 0` compete with ratio `rhs / coeff`; the state `none` stands for
`(pivotRow, minRatio) = (-1, Infinity)`, and the update condition
`ratio < minRatio` keeps the first row attaining the minimum. -/
def rowScan (T : List (List ℚ)) (c tc : Nat) :
    List Nat → Option (Nat × ℚ) → Option (Nat × ℚ)
  | [], acc => acc
  | i :: rest, acc =>
    let coeff := entryAt T i c
    if 0 < coeff then
      let rt := entryAt T i (tc - 1) / coeff
      match acc with
      | none => rowScan T c tc rest (some (i, rt))
      | some pair =>
        if rt < pair.2 then rowScan T c tc rest (some (i, rt))
        else rowScan T c tc rest acc
    else rowScan T c tc rest acc

/-- The leaving row (`pivotRow`) chosen by the ratio test over constraint
rows `0..nc-1`. -/
def findPivotRow (T : List (List ℚ)) (c tc nc : Nat) : Option Nat :=
  (rowScan T c tc (List.range nc) none).map Prod.fst

/-- The pivot operation of lines 118-136 of `simplexLogic.ts`: the pivot
row is divided by the pivot element, then every other row `i` subtracts
`tableau[i][pivotCol]` times the normalized pivot row. -/
def pivotOp (T : List (List ℚ)) (r c tr tc : Nat) : List (List ℚ) :=
  let p := entryAt T r c
  (List.range tr).map (fun i =>
    (List.range tc).map (fun j =>
      if i = r then entryAt T r j / p
      else entryAt T i j - entryAt T i c * (entryAt T r j / p)))

/-- The template string built at line 115 of `simplexLogic.ts`. -/
def pivotDescription (pivotRow pivotCol nv : Nat) (basicVariables : List Nat) : String :=
  "Pivot element at Row " ++ toString (pivotRow + 1) ++ ", Col " ++
  toString (pivotCol + 1) ++ ". Entering: x" ++ toString (pivotCol + 1) ++
  ". Leaving: s" ++
  toString ((basicVariables.getD pivotRow 0 : Int) - (nv : Int) + 1) ++
  " (or var)."

/-- The description string of the terminal optimal step (line 73). -/
def optimalDescription : String :=
  "Optimality condition satisfied. No negative coefficients in objective row."

/-- Outcome of the `while` loop of `simplexLogic.ts`: either the early
`return` on unboundedness (line 100), or fall-through to solution
extraction (optimality `break`, or the iteration ceiling). -/
inductive LoopOut where
  | unbounded (steps : List SimplexStep)
  | finished (tableau : List (List ℚ)) (basicVariables : List Nat)
      (steps : List SimplexStep)
deriving DecidableEq, Repr

/-- The `while (iterations < maxIterations)` loop of lines 58-138 of
`simplexLogic.ts`, with the remaining iteration budget as fuel. -/
def simplexLoop (nv nc tc tr : Nat) :
    Nat → List (List ℚ) → List Nat → List SimplexStep → LoopOut
  | 0, tableau, basicVariables, steps => LoopOut.finished tableau basicVariables steps
  | fuel + 1, tableau, basicVariables, steps =>
    let lastRow := tableau.getD (tr - 1) []
    match findPivotCol lastRow (tc - 1) with
    | none =>
      LoopOut.finished tableau basicVariables
        (steps ++ [⟨tableau, none, none, basicVariables, optimalDescription, true⟩])
    | some pivotCol =>
      match findPivotRow tableau pivotCol tc nc with
      | none => LoopOut.unbounded steps
      | some pivotRow =>
        let steps2 := steps ++
          [⟨tableau, some pivotRow, some pivotCol, basicVariables,
            pivotDescription pivotRow pivotCol nv basicVariables, false⟩]
        simplexLoop nv nc tc tr fuel (pivotOp tableau pivotRow pivotCol tr tc)
          (basicVariables.set pivotRow pivotCol) steps2

/-- The per-row write of the solution-extraction loop (lines 142-148):
`variableValues[basicVarIndex] = tableau[i][totalCols-1]` guarded by
`basicVarIndex < numVariables`. -/
def valScan (T : List (List ℚ)) (B : List Nat) (nv tc : Nat) :
    List Nat → List ℚ → List ℚ
  | [], vals => vals
  | i :: rest, vals =>
    let bvIndex := B.getD i 0
    valScan T B nv tc rest
      (if bvIndex < nv then vals.set bvIndex (entryAt T i (tc - 1)) else vals)

/-- Solution extraction: `Array(numVariables).fill(0)` then the loop over
constraint rows. -/
def extractValues (T : List (List ℚ)) (B : List Nat) (nv nc tc : Nat) : List ℚ :=
  valScan T B nv tc (List.range nc) (List.replicate nv 0)

/-- The loop invocation made by `solveSimplex` on a model: fuel 100
(`maxIterations`), initial tableau and all-slack basis, empty trace. -/
def simplexLoopCall (model : LPModel) : LoopOut :=
  let nv := model.numVariables
  let nc := model.constraints.length
  simplexLoop nv nc (nv + nc + 1) (nc + 1) 100
    (initTableau model) (initBasis model) []

/-- `solveSimplex` of `src/services/simplexLogic.ts`. -/
def solveSimplex (model : LPModel) : SimplexResult :=
  let nv := model.numVariables
  let nc := model.constraints.length
  let tc := nv + nc + 1
  let tr := nc + 1
  match simplexLoopCall model with
  | LoopOut.unbounded steps => ⟨none, [], SimplexStatus.UNBOUNDED, steps⟩
  | LoopOut.finished tableau basicVariables steps =>
    let raw := entryAt tableau (tr - 1) (tc - 1)
    let optimalValue := if model.type = OptimizationType.MINIMIZE then -raw else raw
    ⟨some optimalValue, extractValues tableau basicVariables nv nc tc,
      SimplexStatus.OPTIMAL, steps⟩

/-- The basis invariant of the spec: one basic variable per constraint row,
and each basic variable's column restricted to the constraint rows is a unit
vector (1 in its own row, 0 in every other constraint row). -/
def basisInvariant (T : List (List ℚ)) (B : List Nat) (m : Nat) : Prop :=
  B.length = m ∧ ∀ r, r < m → ∀ i, i < m →
    entryAt T i (B.getD r 0) = if i = r then 1 else 0

instance (T : List (List ℚ)) (B : List Nat) (m : Nat) :
    Decidable (basisInvariant T B m) := by
  unfold basisInvariant
  infer_instance

/-- The MAXIMIZE model with negated objective coefficients that, per the
spec, a MINIMIZE solve is internally equivalent to. -/
def negObjModel (model : LPModel) : LPModel :=
  ⟨OptimizationType.MAXIMIZE, model.numVariables, model.variableNames,
    model.objectiveCoefficients.map (fun x => -x), model.constraints⟩

/-! ## Concrete models used as witnesses and counterexample inputs -/

/-- Maximize x1 with only x2 bounded: the spec's unbounded test case. -/
def unbModel : LPModel :=
  ⟨OptimizationType.MAXIMIZE, 2, ["x1", "x2"], [1, 0],
    [⟨"c1", [0, 1], ConstraintType.LESS_THAN_EQ, 10⟩]⟩

/-- A model whose initial tableau is already optimal. -/
def trivialModel : LPModel :=
  ⟨OptimizationType.MAXIMIZE, 1, ["x1"], [-1],
    [⟨"c1", [1], ConstraintType.LESS_THAN_EQ, 5⟩]⟩

/-- Maximize 5 x1 subject to x1 ≤ 4: a one-pivot solve. -/
def oneVarModel : LPModel :=
  ⟨OptimizationType.MAXIMIZE, 1, ["x1"], [5],
    [⟨"c1", [1], ConstraintType.LESS_THAN_EQ, 4⟩]⟩

/-- Minimize -2 x1 subject to x1 ≤ 3. -/
def minExModel : LPModel :=
  ⟨OptimizationType.MINIMIZE, 1, ["x1"], [-2],
    [⟨"c1", [1], ConstraintType.LESS_THAN_EQ, 3⟩]⟩

/-- Beale's classical cycling linear program: under Dantzig's rule with
lowest-index tie-breaking the tableau cycles with period 6 and the loop
only stops at the iteration ceiling. -/
def bealeModel : LPModel :=
  ⟨OptimizationType.MINIMIZE, 4, ["x1", "x2", "x3", "x4"],
    [-3/4, 150, -1/50, 6],
    [⟨"c1", [1/4, -60, -1/25, 9], ConstraintType.LESS_THAN_EQ, 0⟩,
     ⟨"c2", [1/2, -90, -1/50, 3], ConstraintType.LESS_THAN_EQ, 0⟩,
     ⟨"c3", [0, 0, 1, 0], ConstraintType.LESS_THAN_EQ, 1⟩]⟩

/-- Malformed: the constraint carries 3 coefficients for 2 variables. -/
def truncModel : LPModel :=
  ⟨OptimizationType.MAXIMIZE, 2, ["x1", "x2"], [3, 5],
    [⟨"c1", [1, 2, 99], ConstraintType.LESS_THAN_EQ, 10⟩]⟩

/-- `truncModel` with the excess coefficient removed. -/
def truncTrimModel : LPModel :=
  ⟨OptimizationType.MAXIMIZE, 2, ["x1", "x2"], [3, 5],
    [⟨"c1", [1, 2], ConstraintType.LESS_THAN_EQ, 10⟩]⟩

/-- Malformed: zero decision variables. -/
def zeroVarModel : LPModel :=
  ⟨OptimizationType.MAXIMIZE, 0, [], [],
    [⟨"c1", [], ConstraintType.LESS_THAN_EQ, 7⟩]⟩

/-- Malformed: empty objective-coefficient sequence for 2 variables. -/
def emptyObjModel : LPModel :=
  ⟨OptimizationType.MAXIMIZE, 2, ["x1", "x2"], [],
    [⟨"c1", [1, 1], ConstraintType.LESS_THAN_EQ, 4⟩]⟩

/-- A model with ≤ constraints, one set of ids and variable names. -/
def relModelA : LPModel :=
  ⟨OptimizationType.MAXIMIZE, 2, ["x1", "x2"], [10, 20],
    [⟨"a1", [1, 1], ConstraintType.LESS_THAN_EQ, 50⟩,
     ⟨"a2", [2, 4], ConstraintType.LESS_THAN_EQ, 120⟩]⟩

/-- `relModelA` with the constraint relations, ids and variable names all
changed, coefficients and right-hand sides kept. -/
def relModelB : LPModel :=
  ⟨OptimizationType.MAXIMIZE, 2, ["u", "v"], [10, 20],
    [⟨"b1", [1, 1], ConstraintType.GREATER_THAN_EQ, 50⟩,
     ⟨"b2", [2, 4], ConstraintType.EQUALS, 120⟩]⟩

/-! ## Helper lemmas -/

theorem getD_map_range {α : Type} (n : ℕ) (f : ℕ → α) (i : ℕ) (d : α) :
    ((List.range n).map f).getD i d = if i < n then f i else d := by
  by_cases h : i < n
  · rw [List.getD_eq_getElem]
    · simp [h]
    · simpa using h
  · rw [List.getD_eq_default]
    · simp [h]
    · simpa using h

theorem colScan_append (row : List ℚ) (L1 L2 : List Nat) (acc : Option Nat × ℚ) :
    colScan row (L1 ++ L2) acc = colScan row L2 (colScan row L1 acc) := by
  induction L1 generalizing acc with
  | nil => simp [colScan]
  | cons j rest ih =>
    simp only [List.cons_append, colScan]
    by_cases h : row.getD j 0 < acc.2
    · simp only [if_pos h]
      exact ih _
    · simp only [if_neg h]
      exact ih _

theorem colScan_range_spec (row : List ℚ) (n : ℕ) :
    ((colScan row (List.range n) (none, 0)).1 = none →
      (colScan row (List.range n) (none, 0)).2 = 0 ∧
      ∀ j, j < n → 0 ≤ row.getD j 0) ∧
    (∀ c, (colScan row (List.range n) (none, 0)).1 = some c →
      (colScan row (List.range n) (none, 0)).2 = row.getD c 0 ∧
      row.getD c 0 < 0 ∧ c < n ∧
      (∀ j, j < n → row.getD c 0 ≤ row.getD j 0) ∧
      (∀ j, j < c → row.getD c 0 < row.getD j 0)) := by
  induction n with
  | zero =>
    constructor
    · intro _
      exact ⟨rfl, fun j hj => absurd hj (Nat.not_lt_zero j)⟩
    · intro c hc
      simp [colScan] at hc
  | succ n ih =>
    have hstep : colScan row (List.range (n + 1)) (none, 0) =
        colScan row [n] (colScan row (List.range n) (none, 0)) := by
      rw [List.range_succ, colScan_append]
    rcases hS : colScan row (List.range n) (none, 0) with ⟨pc, m⟩
    rw [hS] at hstep ih
    have hone : ∀ acc : Option Nat × ℚ,
        colScan row [n] acc =
        if row.getD n 0 < acc.2 then (some n, row.getD n 0) else acc := by
      intro acc; rfl
    rw [hone] at hstep
    cases pc with
    | none =>
      obtain ⟨hm, hall⟩ := ih.1 rfl
      simp only at hm
      subst hm
      by_cases hneg : row.getD n 0 < 0
      · rw [if_pos hneg] at hstep
        rw [hstep]
        constructor
        · intro h; simp at h
        · intro c hc
          simp only [Option.some.injEq] at hc
          subst hc
          refine ⟨rfl, hneg, Nat.lt_succ_self n, ?_, ?_⟩
          · intro j hj
            rcases Nat.lt_succ_iff_lt_or_eq.mp hj with hj | hj
            · exact le_of_lt (lt_of_lt_of_le hneg (hall j hj))
            · subst hj; exact le_refl _
          · intro j hj
            exact lt_of_lt_of_le hneg (hall j hj)
      · rw [if_neg hneg] at hstep
        rw [hstep]
        constructor
        · intro _
          refine ⟨rfl, fun j hj => ?_⟩
          rcases Nat.lt_succ_iff_lt_or_eq.mp hj with hj | hj
          · exact hall j hj
          · subst hj; exact le_of_not_lt hneg
        · intro c hc; simp at hc
    | some c0 =>
      obtain ⟨hm, hneg0, hlt0, hmin0, hfirst0⟩ := ih.2 c0 rfl
      simp only at hm
      subst hm
      by_cases hnew : row.getD n 0 < row.getD c0 0
      · rw [if_pos hnew] at hstep
        rw [hstep]
        constructor
        · intro h; simp at h
        · intro c hc
          simp only [Option.some.injEq] at hc
          subst hc
          refine ⟨rfl, lt_trans hnew hneg0, Nat.lt_succ_self n, ?_, ?_⟩
          · intro j hj
            rcases Nat.lt_succ_iff_lt_or_eq.mp hj with hj | hj
            · exact le_of_lt (lt_of_lt_of_le hnew (hmin0 j hj))
            · subst hj; exact le_refl _
          · intro j hj
            exact lt_of_lt_of_le hnew (hmin0 j hj)
      · rw [if_neg hnew] at hstep
        rw [hstep]
        constructor
        · intro h; simp at h
        · intro c hc
          simp only [Option.some.injEq] at hc
          subst hc
          refine ⟨rfl, hneg0, Nat.lt_succ_of_lt hlt0, ?_, hfirst0⟩
          intro j hj
          rcases Nat.lt_succ_iff_lt_or_eq.mp hj with hj | hj
          · exact hmin0 j hj
          · subst hj; exact le_of_not_lt hnew

theorem findPivotCol_none_iff (row : List ℚ) (n : ℕ) :
    findPivotCol row n = none ↔ ∀ j, j < n → 0 ≤ row.getD j 0 := by
  unfold findPivotCol
  constructor
  · intro h
    exact ((colScan_range_spec row n).1 h).2
  · intro h
    cases hc : (colScan row (List.range n) (none, 0)).1 with
    | none => rfl
    | some c =>
      obtain ⟨_, hneg, hlt, _, _⟩ := (colScan_range_spec row n).2 c hc
      exact absurd (h c hlt) (not_le_of_lt hneg)

theorem findPivotCol_spec (row : List ℚ) (n c : ℕ)
    (h : findPivotCol row n = some c) :
    c < n ∧ row.getD c 0 < 0 ∧
    (∀ j, j < n → row.getD c 0 ≤ row.getD j 0) ∧
    (∀ j, j < c → row.getD c 0 < row.getD j 0) := by
  obtain ⟨_, hneg, hlt, hmin, hfirst⟩ := (colScan_range_spec row n).2 c h
  exact ⟨hlt, hneg, hmin, hfirst⟩

theorem rowScan_append (T : List (List ℚ)) (c tc : Nat) (L1 L2 : List Nat)
    (acc : Option (Nat × ℚ)) :
    rowScan T c tc (L1 ++ L2) acc = rowScan T c tc L2 (rowScan T c tc L1 acc) := by
  induction L1 generalizing acc with
  | nil => simp [rowScan]
  | cons i rest ih =>
    simp only [List.cons_append, rowScan]
    by_cases h : 0 < entryAt T i c
    · simp only [if_pos h]
      cases acc with
      | none => exact ih _
      | some pair =>
        by_cases h2 : entryAt T i (tc - 1) / entryAt T i c < pair.2
        · simp only [if_pos h2]
          exact ih _
        · simp only [if_neg h2]
          exact ih _
    · simp only [if_neg h]
      exact ih _

theorem rowScan_range_spec (T : List (List ℚ)) (c tc : Nat) (n : ℕ) :
    (rowScan T c tc (List.range n) none = none →
      ∀ i, i < n → entryAt T i c ≤ 0) ∧
    (∀ r m, rowScan T c tc (List.range n) none = some (r, m) →
      m = entryAt T r (tc - 1) / entryAt T r c ∧ 0 < entryAt T r c ∧ r < n ∧
      (∀ i, i < n → 0 < entryAt T i c →
        m ≤ entryAt T i (tc - 1) / entryAt T i c) ∧
      (∀ i, i < r → 0 < entryAt T i c →
        m < entryAt T i (tc - 1) / entryAt T i c)) := by
  induction n with
  | zero =>
    constructor
    · intro _ i hi
      exact absurd hi (Nat.not_lt_zero i)
    · intro r m hm
      simp [rowScan] at hm
  | succ n ih =>
    have hstep : rowScan T c tc (List.range (n + 1)) none =
        rowScan T c tc [n] (rowScan T c tc (List.range n) none) := by
      rw [List.range_succ, rowScan_append]
    have honeN : rowScan T c tc [n] none =
        if 0 < entryAt T n c then some (n, entryAt T n (tc - 1) / entryAt T n c)
        else none := by
      rfl
    have honeS : ∀ r0 m0, rowScan T c tc [n] (some (r0, m0)) =
        if 0 < entryAt T n c then
          (if entryAt T n (tc - 1) / entryAt T n c < m0 then
            some (n, entryAt T n (tc - 1) / entryAt T n c)
          else some (r0, m0))
        else some (r0, m0) := by
      intro r0 m0; rfl
    rcases hS : rowScan T c tc (List.range n) none with _ | ⟨r0, m0⟩
    · rw [hS, honeN] at hstep
      have hall := ih.1 hS
      by_cases hpos : 0 < entryAt T n c
      · rw [if_pos hpos] at hstep
        rw [hstep]
        constructor
        · intro h; simp at h
        · intro r m hm
          simp only [Option.some.injEq, Prod.mk.injEq] at hm
          obtain ⟨hr, hmv⟩ := hm
          subst hr; subst hmv
          refine ⟨rfl, hpos, Nat.lt_succ_self n, ?_, ?_⟩
          · intro i hi hip
            rcases Nat.lt_succ_iff_lt_or_eq.mp hi with hi | hi
            · exact absurd hip (not_lt_of_le (hall i hi))
            · subst hi; exact le_refl _
          · intro i hi hip
            exact absurd hip (not_lt_of_le (hall i hi))
      · rw [if_neg hpos] at hstep
        rw [hstep]
        constructor
        · intro _ i hi
          rcases Nat.lt_succ_iff_lt_or_eq.mp hi with hi | hi
          · exact hall i hi
          · subst hi; exact le_of_not_lt hpos
        · intro r m hm; simp at hm
    · rw [hS, honeS] at hstep
      obtain ⟨hm0, hpos0, hlt0, hmin0, hfirst0⟩ := ih.2 r0 m0 hS
      by_cases hpos : 0 < entryAt T n c
      · rw [if_pos hpos] at hstep
        by_cases hnew : entryAt T n (tc - 1) / entryAt T n c < m0
        · rw [if_pos hnew] at hstep
          rw [hstep]
          constructor
          · intro h; simp at h
          · intro r m hm
            simp only [Option.some.injEq, Prod.mk.injEq] at hm
            obtain ⟨hr, hmv⟩ := hm
            subst hr; subst hmv
            refine ⟨rfl, hpos, Nat.lt_succ_self n, ?_, ?_⟩
            · intro i hi hip
              rcases Nat.lt_succ_iff_lt_or_eq.mp hi with hi | hi
              · exact le_of_lt (lt_of_lt_of_le hnew (hmin0 i hi hip))
              · subst hi; exact le_refl _
            · intro i hi hip
              exact lt_of_lt_of_le hnew (hmin0 i hi hip)
        · rw [if_neg hnew] at hstep
          rw [hstep]
          constructor
          · intro h; simp at h
          · intro r m hm
            simp only [Option.some.injEq, Prod.mk.injEq] at hm
            obtain ⟨hr, hmv⟩ := hm
            subst hr; subst hmv
            refine ⟨hm0, hpos0, Nat.lt_succ_of_lt hlt0, ?_, hfirst0⟩
            intro i hi hip
            rcases Nat.lt_succ_iff_lt_or_eq.mp hi with hi | hi
            · exact hmin0 i hi hip
            · subst hi; exact le_of_not_lt hnew
      · rw [if_neg hpos] at hstep
        rw [hstep]
        constructor
        · intro h; simp at h
        · intro r m hm
          simp only [Option.some.injEq, Prod.mk.injEq] at hm
          obtain ⟨hr, hmv⟩ := hm
          subst hr; subst hmv
          refine ⟨hm0, hpos0, Nat.lt_succ_of_lt hlt0, ?_, hfirst0⟩
          intro i hi hip
          rcases Nat.lt_succ_iff_lt_or_eq.mp hi with hi | hi
          · exact hmin0 i hi hip
          · subst hi; exact absurd hip hpos

theorem findPivotRow_none_iff (T : List (List ℚ)) (c tc nc : Nat) :
    findPivotRow T c tc nc = none ↔ ∀ i, i < nc → entryAt T i c ≤ 0 := by
  unfold findPivotRow
  constructor
  · intro h
    have hnone : rowScan T c tc (List.range nc) none = none := by
      cases hS : rowScan T c tc (List.range nc) none with
      | none => rfl
      | some pair => rw [hS] at h; simp at h
    exact (rowScan_range_spec T c tc nc).1 hnone
  · intro h
    cases hS : rowScan T c tc (List.range nc) none with
    | none => rfl
    | some pair =>
      obtain ⟨_, hpos, hlt, _, _⟩ :=
        (rowScan_range_spec T c tc nc).2 pair.1 pair.2 (by rw [hS])
      exact absurd hpos (not_lt_of_le (h pair.1 hlt))

theorem findPivotRow_spec (T : List (List ℚ)) (c tc nc r : Nat)
    (h : findPivotRow T c tc nc = some r) :
    0 < entryAt T r c ∧ r < nc ∧
    (∀ i, i < nc → 0 < entryAt T i c →
      entryAt T r (tc - 1) / entryAt T r c ≤ entryAt T i (tc - 1) / entryAt T i c) ∧
    (∀ i, i < r → 0 < entryAt T i c →
      entryAt T r (tc - 1) / entryAt T r c < entryAt T i (tc - 1) / entryAt T i c) := by
  unfold findPivotRow at h
  cases hS : rowScan T c tc (List.range nc) none with
  | none => rw [hS] at h; simp at h
  | some pair =>
    rw [hS] at h
    simp only [Option.map_some', Option.some.injEq] at h
    obtain ⟨hm, hpos, hlt, hmin, hfirst⟩ :=
      (rowScan_range_spec T c tc nc).2 pair.1 pair.2 (by rw [hS])
    subst h
    rw [hm] at hmin hfirst
    exact ⟨hpos, hlt, hmin, hfirst⟩

theorem entryAt_pivotOp (T : List (List ℚ)) (r c tr tc i j : Nat) :
    entryAt (pivotOp T r c tr tc) i j =
    if i < tr ∧ j < tc then
      (if i = r then entryAt T r j / entryAt T r c
       else entryAt T i j - entryAt T i c * (entryAt T r j / entryAt T r c))
    else 0 := by
  show ((pivotOp T r c tr tc).getD i []).getD j 0 = _
  simp only [pivotOp]
  rw [getD_map_range]
  by_cases hi : i < tr
  · by_cases hj : j < tc
    · rw [if_pos hi, getD_map_range, if_pos hj,
        if_pos (show i < tr ∧ j < tc from ⟨hi, hj⟩)]
    · rw [if_pos hi, getD_map_range, if_neg hj,
        if_neg (show ¬(i < tr ∧ j < tc) from fun hand => hj hand.2)]
  · rw [if_neg hi, if_neg (show ¬(i < tr ∧ j < tc) from fun hand => hi hand.1)]
    rfl

theorem getD_set_eq {α : Type} (l : List α) (i j : Nat) (a d : α) :
    (l.set i a).getD j d = if i = j ∧ i < l.length then a else l.getD j d := by
  rw [List.getD_eq_getElem?_getD, List.getD_eq_getElem?_getD, List.getElem?_set]
  by_cases h : i = j
  · subst h
    by_cases h2 : i < l.length
    · simp [h2]
    · simp [h2, List.getElem?_eq_none (le_of_not_lt h2)]
  · simp [h]

theorem valScan_append (T : List (List ℚ)) (B : List Nat) (nv tc : Nat)
    (L1 L2 : List Nat) (vals : List ℚ) :
    valScan T B nv tc (L1 ++ L2) vals =
    valScan T B nv tc L2 (valScan T B nv tc L1 vals) := by
  induction L1 generalizing vals with
  | nil => simp [valScan]
  | cons i rest ih =>
    simp only [List.cons_append, valScan]
    exact ih _

theorem getD_map_neg (l : List ℚ) (n : Nat) :
    (l.map (fun x => -x)).getD n 0 = -(l.getD n 0) := by
  rw [List.getD_eq_getElem?_getD, List.getD_eq_getElem?_getD, List.getElem?_map]
  cases h : l[n]? with
  | none => simp
  | some x => simp

/-! ## Claim theorems -/

/-- C1: if, during an iteration of `solveSimplex`, no constraint row has a
strictly positive entry in the chosen entering column, the loop stops
immediately and the function returns status UNBOUNDED with optimalValue
null, an empty variableValues sequence, and exactly the step trace
accumulated so far (no step is appended for the detecting iteration). -/
theorem unbounded_return_is_immediate :
    (∀ nv nc tc tr fuel T B S c,
      findPivotCol (T.getD (tr - 1) []) (tc - 1) = some c →
      (∀ i, i < nc → entryAt T i c ≤ 0) →
      simplexLoop nv nc tc tr (fuel + 1) T B S = LoopOut.unbounded S) ∧
    (∀ model S, simplexLoopCall model = LoopOut.unbounded S →
      solveSimplex model = ⟨none, [], SimplexStatus.UNBOUNDED, S⟩) := by
  constructor
  · intro nv nc tc tr fuel T B S c hcol hle
    have hrow : findPivotRow T c tc nc = none :=
      (findPivotRow_none_iff T c tc nc).mpr hle
    simp only [simplexLoop, hcol, hrow]
  · intro model S h
    unfold solveSimplex
    rw [h]

/-- C1 witness: on `maximize x1 subject to x2 ≤ 10` the very first
iteration detects unboundedness and returns with an empty trace. -/
theorem unbounded_return_is_immediate_witness :
    simplexLoop 2 1 4 2 100 (initTableau unbModel) (initBasis unbModel) [] =
      LoopOut.unbounded [] ∧
    solveSimplex unbModel = ⟨none, [], SimplexStatus.UNBOUNDED, []⟩ := by
  have h1 := unbounded_return_is_immediate.1 2 1 4 2 99
    (initTableau unbModel) (initBasis unbModel) [] 0 (by decide) (by decide)
  exact ⟨h1, unbounded_return_is_immediate.2 unbModel [] h1⟩

/-- C5: each iteration first scans the objective row's non-RHS entries; if
all are ≥ 0 the loop appends a terminal step with no pivot coordinates and
`isOptimal = true` and the solve ends with status OPTIMAL; otherwise the
entering column returned by the scan is the most negative objective-row
entry, ties broken by the lowest column index. -/
theorem optimality_test_and_entering_rule :
    (∀ nv nc tc tr fuel T B S,
      (∀ j, j < tc - 1 → 0 ≤ (T.getD (tr - 1) []).getD j 0) →
      simplexLoop nv nc tc tr (fuel + 1) T B S =
        LoopOut.finished T B
          (S ++ [⟨T, none, none, B, optimalDescription, true⟩])) ∧
    (∀ model T B S, simplexLoopCall model = LoopOut.finished T B S →
      (solveSimplex model).status = SimplexStatus.OPTIMAL) ∧
    (∀ row n c, findPivotCol row n = some c →
      c < n ∧ row.getD c 0 < 0 ∧
      (∀ j, j < n → row.getD c 0 ≤ row.getD j 0) ∧
      (∀ j, j < c → row.getD c 0 < row.getD j 0)) := by
  refine ⟨?_, ?_, ?_⟩
  · intro nv nc tc tr fuel T B S hge
    have hcol : findPivotCol (T.getD (tr - 1) []) (tc - 1) = none :=
      (findPivotCol_none_iff _ _).mpr hge
    simp only [simplexLoop, hcol]
  · intro model T B S h
    unfold solveSimplex
    rw [h]
  · exact fun row n c h => findPivotCol_spec row n c h

/-- C5 witness: a model whose initial tableau is already optimal stops at
once with the terminal step, and on the row `[-3, -5]` the entering scan
picks column 1, the most negative entry. -/
theorem optimality_test_and_entering_rule_witness :
    (simplexLoop 1 1 3 2 100 (initTableau trivialModel) (initBasis trivialModel) [] =
      LoopOut.finished (initTableau trivialModel) (initBasis trivialModel)
        [⟨initTableau trivialModel, none, none, initBasis trivialModel,
          optimalDescription, true⟩]) ∧
    (solveSimplex trivialModel).status = SimplexStatus.OPTIMAL ∧
    (1 < 2 ∧ ([-3, -5] : List ℚ).getD 1 0 < 0 ∧
      (∀ j, j < 2 → ([-3, -5] : List ℚ).getD 1 0 ≤ ([-3, -5] : List ℚ).getD j 0) ∧
      (∀ j, j < 1 → ([-3, -5] : List ℚ).getD 1 0 < ([-3, -5] : List ℚ).getD j 0)) := by
  have h1 := optimality_test_and_entering_rule.1 1 1 3 2 99
    (initTableau trivialModel) (initBasis trivialModel) [] (by decide)
  exact ⟨h1,
    optimality_test_and_entering_rule.2.1 trivialModel _ _ _ h1,
    optimality_test_and_entering_rule.2.2 [-3, -5] 2 1 (by decide)⟩

/-- C6: when an iteration pivots, the leaving row is chosen among
constraint rows with a strictly positive entry in the entering column as
the row minimizing RHS divided by that entry, with equal minimal ratios
resolved in favour of the lower row index; the loop then pivots on exactly
that row. -/
theorem ratio_test_rule :
    (∀ T c tc nc r, findPivotRow T c tc nc = some r →
      0 < entryAt T r c ∧ r < nc ∧
      (∀ i, i < nc → 0 < entryAt T i c →
        entryAt T r (tc - 1) / entryAt T r c ≤
          entryAt T i (tc - 1) / entryAt T i c) ∧
      (∀ i, i < r → 0 < entryAt T i c →
        entryAt T r (tc - 1) / entryAt T r c <
          entryAt T i (tc - 1) / entryAt T i c)) ∧
    (∀ nv nc tc tr fuel T B S c r,
      findPivotCol (T.getD (tr - 1) []) (tc - 1) = some c →
      findPivotRow T c tc nc = some r →
      simplexLoop nv nc tc tr (fuel + 1) T B S =
        simplexLoop nv nc tc tr fuel (pivotOp T r c tr tc) (B.set r c)
          (S ++ [⟨T, some r, some c, B, pivotDescription r c nv B, false⟩])) := by
  constructor
  · exact fun T c tc nc r h => findPivotRow_spec T c tc nc r h
  · intro nv nc tc tr fuel T B S c r hcol hrow
    simp only [simplexLoop, hcol, hrow]

/-- C6 witness: on a degenerate tableau where rows 0 and 1 tie with ratio
2, row 0 is chosen; and on `oneVarModel` the first iteration pivots on the
row the ratio test returns. -/
theorem ratio_test_rule_witness :
    (0 < entryAt [[1, 1, 0, 2], [2, 0, 1, 4], [-1, 0, 0, 0]] 0 0 ∧ 0 < 2 ∧
      (∀ i, i < 2 → 0 < entryAt [[1, 1, 0, 2], [2, 0, 1, 4], [-1, 0, 0, 0]] i 0 →
        entryAt [[1, 1, 0, 2], [2, 0, 1, 4], [-1, 0, 0, 0]] 0 3 /
          entryAt [[1, 1, 0, 2], [2, 0, 1, 4], [-1, 0, 0, 0]] 0 0 ≤
        entryAt [[1, 1, 0, 2], [2, 0, 1, 4], [-1, 0, 0, 0]] i 3 /
          entryAt [[1, 1, 0, 2], [2, 0, 1, 4], [-1, 0, 0, 0]] i 0) ∧
      (∀ i, i < 0 → 0 < entryAt [[1, 1, 0, 2], [2, 0, 1, 4], [-1, 0, 0, 0]] i 0 →
        entryAt [[1, 1, 0, 2], [2, 0, 1, 4], [-1, 0, 0, 0]] 0 3 /
          entryAt [[1, 1, 0, 2], [2, 0, 1, 4], [-1, 0, 0, 0]] 0 0 <
        entryAt [[1, 1, 0, 2], [2, 0, 1, 4], [-1, 0, 0, 0]] i 3 /
          entryAt [[1, 1, 0, 2], [2, 0, 1, 4], [-1, 0, 0, 0]] i 0)) ∧
    simplexLoop 1 1 3 2 100 (initTableau oneVarModel) (initBasis oneVarModel) [] =
      simplexLoop 1 1 3 2 99 (pivotOp (initTableau oneVarModel) 0 0 2 3)
        ((initBasis oneVarModel).set 0 0)
        ([] ++ [⟨initTableau oneVarModel, some 0, some 0, initBasis oneVarModel,
          pivotDescription 0 0 1 (initBasis oneVarModel), false⟩]) := by
  exact ⟨ratio_test_rule.1 [[1, 1, 0, 2], [2, 0, 1, 4], [-1, 0, 0, 0]] 0 4 2 0
      (of_decide_eq_true (by with_unfolding_all rfl)),
    ratio_test_rule.2 1 1 3 2 99 (initTableau oneVarModel)
      (initBasis oneVarModel) [] 0 0
      (of_decide_eq_true (by with_unfolding_all rfl))
      (of_decide_eq_true (by with_unfolding_all rfl))⟩

theorem entryAt_initTableau (model : LPModel) (i j : Nat) :
    entryAt (initTableau model) i j =
    (if i < model.constraints.length then
      (if j < model.numVariables then
        (model.constraints.getD i cdefault).coefficients.getD j 0
      else if j = model.numVariables + i then 1
      else if j = model.numVariables + model.constraints.length then
        (model.constraints.getD i cdefault).rhs
      else 0)
    else if i = model.constraints.length ∧ j < model.numVariables then
      (if model.type = OptimizationType.MINIMIZE
       then model.objectiveCoefficients.getD j 0
       else -(model.objectiveCoefficients.getD j 0))
    else 0) := by
  show ((initTableau model).getD i []).getD j 0 = _
  simp only [initTableau]
  rw [getD_map_range]
  by_cases hi : i < model.constraints.length + 1
  · rw [if_pos hi]
    by_cases hic : i < model.constraints.length
    · rw [if_pos hic, getD_map_range, if_pos hic]
      by_cases hj : j < model.numVariables + model.constraints.length + 1
      · rw [if_pos hj]
        rfl
      · rw [if_neg hj]
        have h1 : ¬ j < model.numVariables := by omega
        have h2 : ¬ j = model.numVariables + i := by omega
        have h3 : ¬ j = model.numVariables + model.constraints.length := by omega
        rw [if_neg h1, if_neg h2, if_neg h3]
    · have hieq : i = model.constraints.length := by omega
      rw [if_neg hic, getD_map_range, if_neg hic]
      by_cases hj : j < model.numVariables + model.constraints.length + 1
      · rw [if_pos hj]
        by_cases hjn : j < model.numVariables
        · rw [if_pos hjn,
            if_pos (show i = model.constraints.length ∧ j < model.numVariables
              from ⟨hieq, hjn⟩)]
        · rw [if_neg hjn,
            if_neg (show ¬(i = model.constraints.length ∧ j < model.numVariables)
              from fun hand => hjn hand.2)]
      · rw [if_neg hj]
        have hjn : ¬ j < model.numVariables := by omega
        rw [if_neg (show ¬(i = model.constraints.length ∧ j < model.numVariables)
          from fun hand => hjn hand.2)]
  · rw [if_neg hi]
    have h1 : ¬ i < model.constraints.length := by omega
    have h2 : ¬ (i = model.constraints.length ∧ j < model.numVariables) := by omega
    rw [if_neg h1, if_neg h2]
    rfl

/-- C2 (code bug): the solver's only statuses are OPTIMAL and UNBOUNDED —
there is no non-convergence status or error — and on Beale's cycling
example the loop reaches the 100-iteration ceiling (100 pivot steps, none
marked optimal) yet the result is reported with status OPTIMAL. -/
theorem ceiling_reported_as_optimal :
    (∀ model, (solveSimplex model).status = SimplexStatus.OPTIMAL ∨
      (solveSimplex model).status = SimplexStatus.UNBOUNDED) ∧
    (solveSimplex bealeModel).status = SimplexStatus.OPTIMAL ∧
    (solveSimplex bealeModel).steps.length = 100 ∧
    (solveSimplex bealeModel).steps.all (fun s => !s.isOptimal) = true := by
  constructor
  · intro model
    unfold solveSimplex
    cases h : simplexLoopCall model with
    | unbounded S => right; rfl
    | finished T B S => left; rfl
  · exact of_decide_eq_true (by with_unfolding_all rfl)

/-- C3 (code bug): `solveSimplex` performs no validation at all: a
constraint with more coefficients than `numVariables` is silently
truncated (the run is identical to the trimmed model's run), and models
with surplus coefficients, zero variables or an empty objective are all
solved to a normal OPTIMAL result instead of an InvalidModel error. -/
theorem no_model_validation :
    solveSimplex truncModel = solveSimplex truncTrimModel ∧
    (solveSimplex truncModel).status = SimplexStatus.OPTIMAL ∧
    (solveSimplex zeroVarModel).status = SimplexStatus.OPTIMAL ∧
    (solveSimplex emptyObjModel).status = SimplexStatus.OPTIMAL :=
  of_decide_eq_true (by with_unfolding_all rfl)

/-- C4: for a model with `N` variables and `m` constraints the initial
tableau has `m+1` rows and `N+m+1` columns; constraint row `i` carries the
constraint's coefficients in columns `0..N-1`, a 1 in slack column `N+i`,
0 in the other slack columns and the right-hand side in the last column;
the objective row carries the negated (after the MIN→MAX flip) objective
coefficients with RHS 0; the initial basis maps row `i` to column `N+i`. -/
theorem initial_tableau_spec (model : LPModel) (N m : Nat)
    (hN : N = model.numVariables) (hm : m = model.constraints.length) :
    (initTableau model).length = m + 1 ∧
    (∀ row ∈ initTableau model, row.length = N + m + 1) ∧
    (∀ i, i < m → ∀ j, j < N →
      entryAt (initTableau model) i j =
        (model.constraints.getD i cdefault).coefficients.getD j 0) ∧
    (∀ i, i < m → ∀ k, k < m →
      entryAt (initTableau model) i (N + k) = if k = i then 1 else 0) ∧
    (∀ i, i < m →
      entryAt (initTableau model) i (N + m) =
        (model.constraints.getD i cdefault).rhs) ∧
    (∀ j, j < N →
      entryAt (initTableau model) m j =
        if model.type = OptimizationType.MINIMIZE
        then model.objectiveCoefficients.getD j 0
        else -(model.objectiveCoefficients.getD j 0)) ∧
    (∀ k, k < m → entryAt (initTableau model) m (N + k) = 0) ∧
    entryAt (initTableau model) m (N + m) = 0 ∧
    (initBasis model).length = m ∧
    (∀ i, i < m → (initBasis model).getD i 0 = N + i) := by
  subst hN
  subst hm
  refine ⟨?_, ?_, ?_, ?_, ?_, ?_, ?_, ?_, ?_, ?_⟩
  · simp [initTableau]
  · intro row hrow
    simp only [initTableau, List.mem_map] at hrow
    obtain ⟨i, _, hrow⟩ := hrow
    by_cases hic : i < model.constraints.length
    · rw [if_pos hic] at hrow
      rw [← hrow]
      simp
    · rw [if_neg hic] at hrow
      rw [← hrow]
      simp
  · intro i hi j hj
    rw [entryAt_initTableau, if_pos hi, if_pos hj]
  · intro i hi k hk
    rw [entryAt_initTableau, if_pos hi]
    have h1 : ¬ model.numVariables + k < model.numVariables := by omega
    rw [if_neg h1]
    by_cases hk2 : k = i
    · subst hk2
      rw [if_pos rfl, if_pos rfl]
    · have h2 : ¬ model.numVariables + k = model.numVariables + i := by omega
      have h3 : ¬ model.numVariables + k = model.numVariables +
          model.constraints.length := by omega
      rw [if_neg h2, if_neg h3, if_neg hk2]
  · intro i hi
    rw [entryAt_initTableau, if_pos hi]
    have h1 : ¬ model.numVariables + model.constraints.length <
        model.numVariables := by omega
    have h2 : ¬ model.numVariables + model.constraints.length =
        model.numVariables + i := by omega
    rw [if_neg h1, if_neg h2, if_pos rfl]
  · intro j hj
    rw [entryAt_initTableau]
    have h1 : ¬ model.constraints.length < model.constraints.length :=
      lt_irrefl _
    rw [if_neg h1, if_pos ⟨rfl, hj⟩]
  · intro k hk
    rw [entryAt_initTableau]
    have h1 : ¬ model.constraints.length < model.constraints.length :=
      lt_irrefl _
    have h2 : ¬ (model.constraints.length = model.constraints.length ∧
        model.numVariables + k < model.numVariables) := by omega
    rw [if_neg h1, if_neg h2]
  · rw [entryAt_initTableau]
    have h1 : ¬ model.constraints.length < model.constraints.length :=
      lt_irrefl _
    have h2 : ¬ (model.constraints.length = model.constraints.length ∧
        model.numVariables + model.constraints.length <
          model.numVariables) := by omega
    rw [if_neg h1, if_neg h2]
  · simp [initBasis]
  · intro i hi
    simp only [initBasis]
    rw [getD_map_range, if_pos hi]

/-- C4 witness: the initial tableau of `oneVarModel` has the stated shape,
first coefficient and basis entry. -/
theorem initial_tableau_spec_witness :
    (initTableau oneVarModel).length = 1 + 1 ∧
    entryAt (initTableau oneVarModel) 0 0 =
      (oneVarModel.constraints.getD 0 cdefault).coefficients.getD 0 0 ∧
    (initBasis oneVarModel).getD 0 0 = 1 + 0 := by
  have h := initial_tableau_spec oneVarModel 1 1 rfl rfl
  exact ⟨h.1, h.2.2.1 0 (by decide) 0 (by decide),
    h.2.2.2.2.2.2.2.2.2 0 (by decide)⟩

/-- C7: a pivot on row `r`, column `c` (entry strictly positive, as the
ratio test guarantees) followed by recording `c` as row `r`'s basic
variable preserves the basis invariant: the basis still has one entry per
constraint row, and every basic variable's column restricted to the
constraint rows is a unit vector — 1 in its own row, 0 elsewhere. -/
theorem pivot_preserves_basis_invariant (T : List (List ℚ)) (B : List Nat)
    (m tr tc r c : Nat) (hinv : basisInvariant T B m) (hr : r < m)
    (htr : tr = m + 1) (hc : c < tc)
    (hB : ∀ i, i < m → B.getD i 0 < tc)
    (hpos : 0 < entryAt T r c) :
    (B.set r c).length = m ∧
    basisInvariant (pivotOp T r c tr tc) (B.set r c) m := by
  obtain ⟨hlen, hunit⟩ := hinv
  have hp : entryAt T r c ≠ 0 := ne_of_gt hpos
  have hlen2 : (B.set r c).length = m := by
    rw [List.length_set]; exact hlen
  refine ⟨hlen2, hlen2, ?_⟩
  intro r0 hr0 i hi
  have hitr : i < tr := by omega
  by_cases hr0r : r0 = r
  · subst hr0r
    have hcol : (B.set r0 c).getD r0 0 = c := by
      rw [getD_set_eq, if_pos ⟨rfl, by omega⟩]
    rw [hcol, entryAt_pivotOp, if_pos ⟨hitr, hc⟩]
    by_cases hir : i = r0
    · subst hir
      rw [if_pos rfl, if_pos rfl, div_self hp]
    · rw [if_neg hir, if_neg hir, div_self hp, mul_one, sub_self]
  · have hcol : (B.set r c).getD r0 0 = B.getD r0 0 := by
      rw [getD_set_eq, if_neg (fun hand => hr0r hand.1.symm)]
    have hbtc : B.getD r0 0 < tc := hB r0 hr0
    have hrb : entryAt T r (B.getD r0 0) = 0 := by
      rw [hunit r0 hr0 r hr, if_neg (fun h => hr0r h.symm)]
    rw [hcol, entryAt_pivotOp, if_pos ⟨hitr, hbtc⟩]
    by_cases hir : i = r
    · subst hir
      rw [if_pos rfl, hrb, zero_div]
      rw [if_neg (fun h => hr0r h.symm)]
    · rw [if_neg hir, hrb, zero_div, mul_zero, sub_zero]
      exact hunit r0 hr0 i hi

/-- C7 witness: pivoting the concrete tableau `[[2, 1, 4], [-3, 0, 0]]`
(basis `[1]`) on row 0, column 0 keeps one basic variable for the single
constraint row and restores the unit-column invariant for the new basis. -/
theorem pivot_preserves_basis_invariant_witness :
    (([1] : List Nat).set 0 0).length = 1 ∧
    basisInvariant (pivotOp [[2, 1, 4], [-3, 0, 0]] 0 0 2 3)
      (([1] : List Nat).set 0 0) 1 :=
  pivot_preserves_basis_invariant [[2, 1, 4], [-3, 0, 0]] [1] 1 2 3 0 0
    (of_decide_eq_true (by with_unfolding_all rfl)) (by decide) rfl
    (by decide) (by decide)
    (of_decide_eq_true (by with_unfolding_all rfl))

theorem valScan_length (T : List (List ℚ)) (B : List Nat) (nv tc : Nat)
    (L : List Nat) (vals : List ℚ) :
    (valScan T B nv tc L vals).length = vals.length := by
  induction L generalizing vals with
  | nil => rfl
  | cons i rest ih =>
    simp only [valScan]
    rw [ih]
    by_cases h : B.getD i 0 < nv
    · rw [if_pos h, List.length_set]
    · rw [if_neg h]

theorem valScan_range_spec (T : List (List ℚ)) (B : List Nat)
    (nv tc nc : Nat)
    (hdist : ∀ i j, i < nc → j < nc → i ≠ j → B.getD i 0 ≠ B.getD j 0) :
    ∀ n, n ≤ nc →
      (∀ i, i < n → B.getD i 0 < nv →
        (valScan T B nv tc (List.range n) (List.replicate nv 0)).getD
          (B.getD i 0) 0 = entryAt T i (tc - 1)) ∧
      (∀ v, v < nv → (∀ i, i < n → B.getD i 0 ≠ v) →
        (valScan T B nv tc (List.range n) (List.replicate nv 0)).getD v 0 = 0) := by
  intro n
  induction n with
  | zero =>
    intro _
    constructor
    · intro i hi
      exact absurd hi (Nat.not_lt_zero i)
    · intro v hv _
      show (List.replicate nv (0 : ℚ)).getD v 0 = 0
      rw [List.getD_eq_getElem?_getD]
      cases h : (List.replicate nv (0 : ℚ))[v]? with
      | none => rfl
      | some x =>
        have := List.getElem?_mem h
        rw [List.eq_of_mem_replicate this]
        rfl
  | succ n ih =>
    intro hn
    have hn2 : n ≤ nc := Nat.le_of_succ_le hn
    have hnlt : n < nc := hn
    obtain ⟨ih1, ih2⟩ := ih hn2
    have hstep : valScan T B nv tc (List.range (n + 1)) (List.replicate nv 0) =
        (if B.getD n 0 < nv then
          (valScan T B nv tc (List.range n) (List.replicate nv 0)).set
            (B.getD n 0) (entryAt T n (tc - 1))
        else valScan T B nv tc (List.range n) (List.replicate nv 0)) := by
      rw [List.range_succ, valScan_append]
      show valScan T B nv tc [n] _ = _
      by_cases h : B.getD n 0 < nv
      · simp only [valScan, if_pos h]
      · simp only [valScan, if_neg h]
    have hFlen : (valScan T B nv tc (List.range n)
        (List.replicate nv 0)).length = nv := by
      rw [valScan_length, List.length_replicate]
    constructor
    · intro i hi hbi
      rcases Nat.lt_succ_iff_lt_or_eq.mp hi with hi2 | hi2
      · rw [hstep]
        by_cases hbn : B.getD n 0 < nv
        · rw [if_pos hbn, getD_set_eq,
            if_neg (fun hand =>
              hdist n i hnlt (lt_of_lt_of_le hi2 hn2) (by omega) hand.1)]
          exact ih1 i hi2 hbi
        · rw [if_neg hbn]
          exact ih1 i hi2 hbi
      · subst hi2
        rw [hstep, if_pos hbi, getD_set_eq,
          if_pos ⟨rfl, by rw [hFlen]; exact hbi⟩]
    · intro v hv hnone
      rw [hstep]
      by_cases hbn : B.getD n 0 < nv
      · rw [if_pos hbn, getD_set_eq,
          if_neg (fun hand => hnone n (Nat.lt_succ_self n) hand.1)]
        exact ih2 v hv (fun i hi => hnone i (Nat.lt_succ_of_lt hi))
      · rw [if_neg hbn]
        exact ih2 v hv (fun i hi => hnone i (Nat.lt_succ_of_lt hi))

/-- C8: on an OPTIMAL return the extracted solution has length exactly
`numVariables`; each constraint row whose basic variable is a decision
column receives that row's RHS; decision variables never basic stay 0; and
the optimal value is the objective row's RHS entry, negated when the model
was a MINIMIZE. -/
theorem solution_extraction_spec :
    (∀ T B nv nc tc, (extractValues T B nv nc tc).length = nv) ∧
    (∀ T B nv nc tc,
      (∀ i j, i < nc → j < nc → i ≠ j → B.getD i 0 ≠ B.getD j 0) →
      (∀ i, i < nc → B.getD i 0 < nv →
        (extractValues T B nv nc tc).getD (B.getD i 0) 0 =
          entryAt T i (tc - 1)) ∧
      (∀ v, v < nv → (∀ i, i < nc → B.getD i 0 ≠ v) →
        (extractValues T B nv nc tc).getD v 0 = 0)) ∧
    (∀ model T B S, simplexLoopCall model = LoopOut.finished T B S →
      solveSimplex model =
        ⟨some (if model.type = OptimizationType.MINIMIZE
            then -(entryAt T (model.constraints.length + 1 - 1)
                (model.numVariables + model.constraints.length + 1 - 1))
            else entryAt T (model.constraints.length + 1 - 1)
                (model.numVariables + model.constraints.length + 1 - 1)),
          extractValues T B model.numVariables model.constraints.length
            (model.numVariables + model.constraints.length + 1),
          SimplexStatus.OPTIMAL, S⟩) := by
  refine ⟨?_, ?_, ?_⟩
  · intro T B nv nc tc
    unfold extractValues
    rw [valScan_length, List.length_replicate]
  · intro T B nv nc tc hdist
    exact valScan_range_spec T B nv tc nc hdist nc (le_refl nc)
  · intro model T B S h
    unfold solveSimplex
    rw [h]

/-- C8 witness: on `oneVarModel` (maximize 5 x1, x1 ≤ 4) the extracted
values have length 1, the basic decision variable x1 receives the row RHS
4, and the full result is optimal value 20 with values `[4]`. -/
theorem solution_extraction_spec_witness :
    (extractValues [[1, 1, 4], [0, 5, 20]] [0] 1 1 3).length = 1 ∧
    (extractValues [[1, 1, 4], [0, 5, 20]] [0] 1 1 3).getD
      (([0] : List Nat).getD 0 0) 0 = entryAt [[1, 1, 4], [0, 5, 20]] 0 (3 - 1) ∧
    solveSimplex oneVarModel =
      ⟨some (if oneVarModel.type = OptimizationType.MINIMIZE
          then -(entryAt [[1, 1, 4], [0, 5, 20]]
              (oneVarModel.constraints.length + 1 - 1)
              (oneVarModel.numVariables + oneVarModel.constraints.length + 1 - 1))
          else entryAt [[1, 1, 4], [0, 5, 20]]
              (oneVarModel.constraints.length + 1 - 1)
              (oneVarModel.numVariables + oneVarModel.constraints.length + 1 - 1)),
        extractValues [[1, 1, 4], [0, 5, 20]] [0] oneVarModel.numVariables
          oneVarModel.constraints.length
          (oneVarModel.numVariables + oneVarModel.constraints.length + 1),
        SimplexStatus.OPTIMAL,
        [⟨[[1, 1, 4], [-5, 0, 0]], some 0, some 0, [1],
          pivotDescription 0 0 1 [1], false⟩,
         ⟨[[1, 1, 4], [0, 5, 20]], none, none, [0], optimalDescription, true⟩]⟩ :=
  ⟨solution_extraction_spec.1 [[1, 1, 4], [0, 5, 20]] [0] 1 1 3,
    (solution_extraction_spec.2.1 [[1, 1, 4], [0, 5, 20]] [0] 1 1 3
      (fun i j hi hj hne => absurd (show i = j by omega) hne)).1
      0 (by decide) (by decide),
    solution_extraction_spec.2.2 oneVarModel [[1, 1, 4], [0, 5, 20]] [0]
      [⟨[[1, 1, 4], [-5, 0, 0]], some 0, some 0, [1],
        pivotDescription 0 0 1 [1], false⟩,
       ⟨[[1, 1, 4], [0, 5, 20]], none, none, [0], optimalDescription, true⟩]
      (of_decide_eq_true (by with_unfolding_all rfl))⟩

/-- C9: solving a MINIMIZE model is exactly internally maximizing the
negated objective: against the MAXIMIZE model with objective coefficients
negated, the status, variable assignment and step trace are identical, and
the reported optimal value is the negation of the maximized value. -/
theorem minimize_is_negated_maximize (model : LPModel)
    (h : model.type = OptimizationType.MINIMIZE) :
    (solveSimplex model).status = (solveSimplex (negObjModel model)).status ∧
    (solveSimplex model).variableValues =
      (solveSimplex (negObjModel model)).variableValues ∧
    (solveSimplex model).steps = (solveSimplex (negObjModel model)).steps ∧
    (solveSimplex model).optimalValue =
      (solveSimplex (negObjModel model)).optimalValue.map (fun x => -x) := by
  have htab : initTableau (negObjModel model) = initTableau model := by
    unfold initTableau negObjModel
    apply List.map_congr_left
    intro i _
    by_cases hic : i < model.constraints.length
    · rw [if_pos hic, if_pos hic]
    · rw [if_neg hic, if_neg hic]
      apply List.map_congr_left
      intro j _
      by_cases hj : j < model.numVariables
      · rw [if_pos hj, if_pos hj, h]
        rw [if_neg (by simp), if_pos rfl, getD_map_neg, neg_neg]
      · rw [if_neg hj, if_neg hj]
  have hcall : simplexLoopCall (negObjModel model) = simplexLoopCall model := by
    unfold simplexLoopCall
    rw [htab]
    rfl
  unfold solveSimplex
  rw [hcall]
  cases hout : simplexLoopCall model with
  | unbounded S =>
    exact ⟨rfl, rfl, rfl, rfl⟩
  | finished T B S =>
    refine ⟨rfl, rfl, rfl, ?_⟩
    show some _ = Option.map _ (some _)
    rw [Option.map_some']
    rw [h, if_pos rfl,
      if_neg (show ¬(negObjModel model).type = OptimizationType.MINIMIZE
        by simp [negObjModel])]
    exact rfl

/-- C9 witness: on `minExModel` (minimize -2 x1 subject to x1 ≤ 3) the
solve agrees with maximizing 2 x1 in status, values and trace, and its
optimal value is the negation of the maximized one. -/
theorem minimize_is_negated_maximize_witness :
    (solveSimplex minExModel).status =
      (solveSimplex (negObjModel minExModel)).status ∧
    (solveSimplex minExModel).variableValues =
      (solveSimplex (negObjModel minExModel)).variableValues ∧
    (solveSimplex minExModel).steps =
      (solveSimplex (negObjModel minExModel)).steps ∧
    (solveSimplex minExModel).optimalValue =
      (solveSimplex (negObjModel minExModel)).optimalValue.map (fun x => -x) :=
  minimize_is_negated_maximize minExModel rfl

/-- C10: `solveSimplex` never reads constraint relation types, constraint
ids or variable names: two models agreeing on optimization type, variable
count, objective coefficients and each constraint's coefficients and RHS
produce identical results, whatever their `type`, `id` and
`variableNames` fields. -/
theorem solver_ignores_relation_id_and_names (m1 m2 : LPModel)
    (ht : m1.type = m2.type)
    (hn : m1.numVariables = m2.numVariables)
    (ho : m1.objectiveCoefficients = m2.objectiveCoefficients)
    (hc : m1.constraints.map (fun con => (con.coefficients, con.rhs)) =
      m2.constraints.map (fun con => (con.coefficients, con.rhs))) :
    solveSimplex m1 = solveSimplex m2 := by
  have hlen : m1.constraints.length = m2.constraints.length := by
    have h2 := congrArg List.length hc
    simpa using h2
  have hproj : ∀ i,
      (m1.constraints.getD i cdefault).coefficients =
        (m2.constraints.getD i cdefault).coefficients ∧
      (m1.constraints.getD i cdefault).rhs =
        (m2.constraints.getD i cdefault).rhs := by
    intro i
    have e1 : (m1.constraints.map
        (fun con => (con.coefficients, con.rhs))).getD i
          (cdefault.coefficients, cdefault.rhs) =
        ((m1.constraints.getD i cdefault).coefficients,
         (m1.constraints.getD i cdefault).rhs) :=
      List.getD_map m1.constraints cdefault
        (fun con => (con.coefficients, con.rhs))
    have e2 : (m2.constraints.map
        (fun con => (con.coefficients, con.rhs))).getD i
          (cdefault.coefficients, cdefault.rhs) =
        ((m2.constraints.getD i cdefault).coefficients,
         (m2.constraints.getD i cdefault).rhs) :=
      List.getD_map m2.constraints cdefault
        (fun con => (con.coefficients, con.rhs))
    have e3 : (m1.constraints.map
        (fun con => (con.coefficients, con.rhs))).getD i
          (cdefault.coefficients, cdefault.rhs) =
        (m2.constraints.map
        (fun con => (con.coefficients, con.rhs))).getD i
          (cdefault.coefficients, cdefault.rhs) := by
      rw [hc]
    rw [e1, e2] at e3
    exact ⟨congrArg Prod.fst e3, congrArg Prod.snd e3⟩
  have htab : initTableau m1 = initTableau m2 := by
    unfold initTableau
    rw [hn, hlen]
    apply List.map_congr_left
    intro i _
    by_cases hic : i < m2.constraints.length
    · rw [if_pos hic, if_pos hic]
      apply List.map_congr_left
      intro j _
      by_cases hj : j < m2.numVariables
      · rw [if_pos hj, if_pos hj, (hproj i).1]
      · rw [if_neg hj, if_neg hj]
        by_cases hj2 : j = m2.numVariables + i
        · rw [if_pos hj2, if_pos hj2]
        · rw [if_neg hj2, if_neg hj2]
          by_cases hj3 : j = m2.numVariables + m2.constraints.length + 1 - 1
          · rw [if_pos hj3, if_pos hj3, (hproj i).2]
          · rw [if_neg hj3, if_neg hj3]
    · rw [if_neg hic, if_neg hic]
      apply List.map_congr_left
      intro j _
      by_cases hj : j < m2.numVariables
      · rw [if_pos hj, if_pos hj, ht, ho]
      · rw [if_neg hj, if_neg hj]
  have hbasis : initBasis m1 = initBasis m2 := by
    unfold initBasis
    rw [hn, hlen]
  have hcall : simplexLoopCall m1 = simplexLoopCall m2 := by
    unfold simplexLoopCall
    rw [hn, hlen, htab, hbasis]
  unfold solveSimplex
  rw [hcall, hn, hlen, ht]

/-- C10 witness: `relModelA` and `relModelB` differ only in constraint
relations (≤ versus ≥ and =), constraint ids and variable names, and
`solveSimplex` returns identical results on them. -/
theorem solver_ignores_relation_id_and_names_witness :
    solveSimplex relModelA = solveSimplex relModelB :=
  solver_ignores_relation_id_and_names relModelA relModelB rfl rfl rfl rfl

end Simplex
